import Mathlib

/-!
AWRCompare — verification of the report-comparison core

A shallow embedding of the comparison core of the AWRCompare repository:
value normalization (`BaseReportParser._normalize_value`), HTML-table row
extraction (`AWRParser._parse_html_table` / `PgProfileParser._parse_html_table`,
which are textually identical), and the comparison engine
(`ComparisonEngine` in `src/comparison/comparison_engine.py`).

Python values stored in table rows are one of: `None`, `int`, `float`, `str`.
Floats are modelled as exact rationals (`ℚ`); Python's float parsing is
modelled for finite decimal literals (optional sign, digits, optional
fractional part, optional exponent).  The model deliberately omits Python's
underscore digit grouping and the non-finite literals `inf`/`nan`, which do
not occur in performance-report cells; strings using them behave here as
unparseable text.  A raised Python exception is modelled as `Except.error ()`.
-/

set_option maxRecDepth 10000

namespace AWRCompare

/-- A Python value held in a parsed table row: `None`, `int`, `float` or `str`. -/
inductive Value where
  | none : Value
  | int (n : ℤ) : Value
  | float (q : ℚ) : Value
  | str (s : String) : Value
deriving DecidableEq, Repr

/-- Whitespace characters removed by Python's `str.strip()` (ASCII subset). -/
def isPySpace (c : Char) : Bool :=
  c = ' ' || c = '\t' || c = '\n' || c = '\r' || c = '\x0b' || c = '\x0c'

/-- Python `str.strip()` on a character list. -/
def pyStrip (s : List Char) : List Char :=
  ((s.dropWhile isPySpace).reverse.dropWhile isPySpace).reverse

/-- Is `c` one of the ASCII digits `0`-`9`? -/
def isDigitChar (c : Char) : Bool := '0' ≤ c && c ≤ '9'

/-- Numeric value of an ASCII digit character. -/
def charVal (c : Char) : ℕ := c.toNat - 48

/-- Value of a big-endian digit string. -/
def digitsToNat (l : List Char) : ℕ := l.foldl (fun a c => 10 * a + charVal c) 0

/-- Parse a nonempty all-digit string to a natural number. -/
def parseDigits (l : List Char) : Option ℕ :=
  if l ≠ [] ∧ l.all isDigitChar then some (digitsToNat l) else Option.none

/-- Python `int(s)` on a trimmed string: optional sign then decimal digits.
(Underscore digit grouping is not modelled.) -/
def pyIntParse (s : List Char) : Option ℤ :=
  match s with
  | [] => Option.none
  | c :: rest =>
    if c = '+' then (parseDigits rest).map Int.ofNat
    else if c = '-' then (parseDigits rest).map (fun n => -(n : ℤ))
    else (parseDigits (c :: rest)).map Int.ofNat

/-- Split a string at the first `e`/`E`, if any (mantissa, exponent part). -/
def splitAtExp (s : List Char) : List Char × Option (List Char) :=
  let mant := s.takeWhile (fun c => c ≠ 'e' ∧ c ≠ 'E')
  let rest := s.dropWhile (fun c => c ≠ 'e' ∧ c ≠ 'E')
  match rest with
  | [] => (mant, Option.none)
  | _ :: after => (mant, some after)

/-- Parse an unsigned decimal mantissa: `digits`, `digits.digits?` or `.digits`. -/
def parseMantissa (s : List Char) : Option ℚ :=
  let intPart := s.takeWhile (fun c => c ≠ '.')
  let rest := s.dropWhile (fun c => c ≠ '.')
  match rest with
  | [] =>
    if intPart ≠ [] ∧ intPart.all isDigitChar then some (digitsToNat intPart) else Option.none
  | _ :: fracPart =>
    if (intPart ++ fracPart) ≠ [] ∧ intPart.all isDigitChar ∧ fracPart.all isDigitChar then
      some ((digitsToNat intPart : ℚ) + (digitsToNat fracPart : ℚ) / (10 : ℚ) ^ fracPart.length)
    else Option.none

/-- Parse a signed decimal exponent. -/
def parseExp (s : List Char) : Option ℤ :=
  match s with
  | [] => Option.none
  | c :: rest =>
    if c = '+' then (parseDigits rest).map Int.ofNat
    else if c = '-' then (parseDigits rest).map (fun n => -(n : ℤ))
    else (parseDigits (c :: rest)).map Int.ofNat

/-- Unsigned part of Python `float(s)`: mantissa with optional exponent. -/
def pyFloatCore (s : List Char) : Option ℚ :=
  let (mant, expPart) := splitAtExp s
  match parseMantissa mant, expPart with
  | some m, Option.none => some m
  | some m, some e => (parseExp e).map (fun k => m * (10 : ℚ) ^ k)
  | Option.none, _ => Option.none

/-- Python `float(s)` on a trimmed string, restricted to finite decimal
literals (see module comment). -/
def pyFloatParse (s : List Char) : Option ℚ :=
  match s with
  | [] => Option.none
  | c :: rest =>
    if c = '+' then pyFloatCore rest
    else if c = '-' then (pyFloatCore rest).map Neg.neg
    else pyFloatCore (c :: rest)

/-- The K/M/G/T suffix loop of `_normalize_value`: on a matching suffix whose
prefix parses as a float, multiply by the binary multiplier; on a parse
failure continue with the remaining suffixes. -/
def trySuffixes (vc : List Char) : List (Char × ℚ) → Option ℚ
  | [] => Option.none
  | (suf, mult) :: rest =>
    if vc.getLast? = some suf then
      match pyFloatParse vc.dropLast with
      | some q => some (q * mult)
      | Option.none => trySuffixes vc rest
    else trySuffixes vc rest

/-- The binary unit multipliers of `_normalize_value`, in source order. -/
def unitMultipliers : List (Char × ℚ) :=
  [('K', 1024), ('M', 1024 ^ 2), ('G', 1024 ^ 3), ('T', 1024 ^ 4)]

/-- Models `BaseReportParser._normalize_value`: turn a raw cell string into a typed
value.  Empty/whitespace-only input gives `None`; a comma-stripped decimal
gives a float (if it contains a dot) or an int; a `%`-suffixed number gives
the bare float; a K/M/G/T-suffixed number gives the prefix times the binary
multiplier; anything else is returned as the stripped text. -/
def normalizeValue (value : String) : Value :=
  let raw := value.toList
  if pyStrip raw = [] then Value.none
  else
    let v := pyStrip raw
    let valueClean := v.filter (fun c => c ≠ ',')
    let step3 : Option Value :=
      if valueClean.contains '.' then (pyFloatParse valueClean).map Value.float
      else (pyIntParse valueClean).map Value.int
    match step3 with
    | some r => r
    | Option.none =>
      let pct : Option Value :=
        if v.getLast? = some '%' then
          (pyFloatParse (v.dropLast.filter (fun c => c ≠ ','))).map Value.float
        else Option.none
      match pct with
      | some r => r
      | Option.none =>
        match trySuffixes valueClean unitMultipliers with
        | some q => Value.float q
        | Option.none => Value.str (String.mk v)

/-! Section: the comparison engine (`src/comparison/comparison_engine.py`) -/

/-- Models `float(x)` as applied in `_compare_values`: numbers coerce to their
rational value; a string goes through Python float parsing (surrounding
whitespace allowed); `float(None)` raises `TypeError`, modelled as failure. -/
def pyFloatOfValue : Value → Option ℚ
  | Value.none => Option.none
  | Value.int n => some (n : ℚ)
  | Value.float q => some q
  | Value.str s => pyFloatParse (pyStrip s.toList)

/-- A threshold dictionary; absent keys fall back to the defaults 15/30 at
the lookup sites (`thresholds.get('warning_percent', 15)`). -/
structure Thresholds where
  warning_percent : Option ℚ
  critical_percent : Option ℚ
deriving DecidableEq, Repr

/-- The `ComparisonResult` dataclass of the source: one diffed metric. -/
structure ComparisonResult where
  metric_name : String
  base_value : Value
  target_value : Value
  absolute_change : Option ℚ
  percent_change : Option ℚ
  is_warning : Bool
  is_critical : Bool
deriving DecidableEq, Repr

/-- Models `ComparisonEngine._compare_values`: coerce both values to numbers; on
failure record a non-quantifiable outcome; otherwise compute absolute and
percent change and classify against the thresholds. -/
def compareValues (metricName : String) (baseValue targetValue : Value)
    (th : Thresholds) : ComparisonResult :=
  match pyFloatOfValue baseValue, pyFloatOfValue targetValue with
  | some baseNum, some targetNum =>
    let absoluteChange := targetNum - baseNum
    let percentChange : Option ℚ :=
      if baseNum ≠ 0 then some (absoluteChange / |baseNum| * 100) else Option.none
    let flags : Bool × Bool :=
      match percentChange with
      | some p =>
        if |p| ≥ th.critical_percent.getD 30 then (false, true)
        else if |p| ≥ th.warning_percent.getD 15 then (true, false)
        else (false, false)
      | Option.none => (false, false)
    { metric_name := metricName, base_value := baseValue, target_value := targetValue,
      absolute_change := some absoluteChange, percent_change := percentChange,
      is_warning := flags.1, is_critical := flags.2 }
  | _, _ =>
    { metric_name := metricName, base_value := baseValue, target_value := targetValue,
      absolute_change := Option.none, percent_change := Option.none,
      is_warning := false, is_critical := false }

/-- Lookup in a Python dict (insertion-ordered association list with unique
keys, which is what `dictInsert` builds). -/
def dictGet {α : Type} (d : List (String × α)) (k : String) : Option α :=
  match d with
  | [] => Option.none
  | p :: rest => if p.1 = k then some p.2 else dictGet rest k

/-- Insertion into a Python dict: an existing key keeps its position and gets
the new value; a new key is appended. -/
def dictInsert {α : Type} (d : List (String × α)) (k : String) (v : α) :
    List (String × α) :=
  match d with
  | [] => [(k, v)]
  | p :: rest => if p.1 = k then (k, v) :: rest else p :: dictInsert rest k v

/-- A table row: a Python dict from column name to value. -/
abbrev Row := List (String × Value)

/-- Membership test `k in row`. -/
def Row.hasKey (r : Row) (k : String) : Bool := r.any (fun p => p.1 = k)

/-- Models `row.get(k)`: `None` both when the key is missing and when the stored
value is `None` (the two are indistinguishable to `.get`). -/
def Row.getV (r : Row) (k : String) : Value := (dictGet r k).getD Value.none

/-- Python `str()` of a row value, as used for row keys.  `str(float)` is
modelled by the rational's canonical rendering; Python's exact
shortest-round-trip float formatting is not reproduced (row keys in the
reports come from label columns, where `str` is the identity). -/
def pyStr : Value → String
  | Value.none => "None"
  | Value.int n => toString n
  | Value.float q => toString q
  | Value.str s => s

/-- The `TableData` dataclass (its always-empty `metadata` dict is omitted). -/
structure TableData where
  name : String
  headers : List String
  rows : List Row
deriving DecidableEq, Repr

/-- The `ComparisonType` enum. -/
inductive ComparisonType where
  | oracle_oracle
  | postgres_postgres
  | cross_platform
deriving DecidableEq, Repr

/-- Does `needle` start `hay`? -/
def startsList : List Char → List Char → Bool
  | [], _ => true
  | _ :: _, [] => false
  | a :: as, b :: bs => a = b && startsList as bs

/-- Python substring test (`needle in hay`). -/
def containsSub (needle : List Char) : List Char → Bool
  | [] => startsList needle []
  | c :: rest => startsList needle (c :: rest) || containsSub needle rest

/-- Models `ComparisonEngine._determine_comparison_type`. -/
def determineComparisonType (baseType targetType : String) : ComparisonType :=
  if baseType = targetType then
    if containsSub "oracle".toList baseType.toList then ComparisonType.oracle_oracle
    else ComparisonType.postgres_postgres
  else ComparisonType.cross_platform

/-- The external configuration consumed by the engine (thresholds per mode,
ignored columns, table descriptions), passed in as an opaque lookup table. -/
structure Config where
  samePlatformThresholds : Thresholds
  crossPlatformThresholds : Thresholds
  ignoredColumns : List String
  tableDescriptions : List (String × String)

/-- Models `ComparisonEngine._get_thresholds`. -/
def getThresholds (cfg : Config) (t : ComparisonType) : Thresholds :=
  if t = ComparisonType.cross_platform then cfg.crossPlatformThresholds
  else cfg.samePlatformThresholds

/-- The fixed label-column exclusion list of `_is_numeric_column`. -/
def textColumns : List String :=
  ["Metric", "Event", "SQL ID", "Query ID", "Name", "Description"]

/-- Models `ComparisonEngine._is_numeric_column`. -/
def isNumericColumn (cfg : Config) (columnName : String) : Bool :=
  if columnName ∈ cfg.ignoredColumns then false
  else decide (columnName ∉ textColumns)

/-- Models `config.get_table_description`: the configured description, defaulting to
the identifier itself. -/
def getTableDescription (cfg : Config) (tableName : String) : String :=
  (dictGet cfg.tableDescriptions tableName).getD tableName

/-- Models `ComparisonEngine._get_row_key`: `str()` of the row's first value,
`""` for an empty row. -/
def getRowKey (row : Row) : String :=
  match row.head? with
  | some p => pyStr p.2
  | Option.none => ""

/-- The dict comprehension `{key(row): row for row in target.rows}` —
a later row with the same key overwrites an earlier one. -/
def buildIndex (rows : List Row) : List (String × Row) :=
  rows.foldl (fun d row => dictInsert d (getRowKey row) row) []

/-- Truthiness of a row dict (`if target_row:`): the empty dict is falsy. -/
def rowTruthy (r : Row) : Bool := !r.isEmpty

/-- The body of the base-row loop in `_compare_same_platform`: look up the
matching target row in the index, then walk the base table's headers. -/
def samePlatformRow (targetIndex : List (String × Row)) (headers : List String)
    (th : Thresholds) (cfg : Config) (baseRow : Row) : List ComparisonResult :=
  match dictGet targetIndex (getRowKey baseRow) with
  | some targetRow =>
    if rowTruthy targetRow then
      headers.filterMap (fun header =>
        if Row.hasKey targetRow header ∧ isNumericColumn cfg header then
          let baseValue := Row.getV baseRow header
          let targetValue := Row.getV targetRow header
          if baseValue ≠ Value.none ∧ targetValue ≠ Value.none then
            some (compareValues header baseValue targetValue th)
          else Option.none
        else Option.none)
    else []
  | Option.none => []

/-- Models `ComparisonEngine._compare_same_platform`. -/
def compareSamePlatform (baseTable targetTable : TableData) (th : Thresholds)
    (cfg : Config) : List ComparisonResult :=
  let targetIndex := buildIndex targetTable.rows
  baseTable.rows.flatMap (samePlatformRow targetIndex baseTable.headers th cfg)

/-- One step of Python `sum()` over row values: adding a string (or `None`)
raises `TypeError`, modelled as failure. -/
def pySumStep (acc : Option ℚ) (v : Value) : Option ℚ :=
  match acc, v with
  | some a, Value.int n => some (a + (n : ℚ))
  | some a, Value.float q => some (a + q)
  | _, _ => Option.none

/-- Python `sum()` over row values, starting at `0`. -/
def pySum (vs : List Value) : Option ℚ := vs.foldl pySumStep (some 0)

/-- The non-`None` values of one column, in row order
(`[row.get(h) for row in rows if row.get(h) is not None]`). -/
def columnValues (t : TableData) (header : String) : List Value :=
  (t.rows.map (fun r => Row.getV r header)).filter (fun v => v ≠ Value.none)

/-- Models `set(base.headers) & set(target.headers)`.  Python iterates a set in an
unspecified order; it is modelled here in first-appearance order of the base
table's headers.  The theorems proved below do not depend on this order. -/
def commonHeaders (baseTable targetTable : TableData) : List String :=
  baseTable.headers.dedup.filter (fun h => h ∈ targetTable.headers)

/-- The per-header loop of `_compare_cross_platform`; `Except.error ()` is
the `TypeError` raised by `sum` on a string cell. -/
def crossLoop (baseTable targetTable : TableData) (th : Thresholds) (cfg : Config) :
    List String → Except Unit (List ComparisonResult)
  | [] => Except.ok []
  | header :: rest =>
    if isNumericColumn cfg header then
      let baseValues := columnValues baseTable header
      let targetValues := columnValues targetTable header
      if baseValues ≠ [] ∧ targetValues ≠ [] then
        match pySum baseValues, pySum targetValues with
        | some baseSum, some targetSum =>
          (crossLoop baseTable targetTable th cfg rest).map (fun comps =>
            compareValues header (Value.float (baseSum / baseValues.length))
              (Value.float (targetSum / targetValues.length)) th :: comps)
        | _, _ => Except.error ()
      else crossLoop baseTable targetTable th cfg rest
    else crossLoop baseTable targetTable th cfg rest

/-- Models `ComparisonEngine._compare_cross_platform`. -/
def compareCrossPlatform (baseTable targetTable : TableData) (th : Thresholds)
    (cfg : Config) : Except Unit (List ComparisonResult) :=
  crossLoop baseTable targetTable th cfg (commonHeaders baseTable targetTable)

/-- The `TableComparison` dataclass. -/
structure TableComparison where
  table_name : String
  table_description : String
  base_table : TableData
  target_table : TableData
  comparisons : List ComparisonResult
deriving DecidableEq, Repr

/-- Models `TableComparison.get_critical_count`. -/
def TableComparison.criticalCount (tc : TableComparison) : ℕ :=
  (tc.comparisons.filter (fun c => c.is_critical)).length

/-- Models `TableComparison.get_warning_count` (warnings not already critical). -/
def TableComparison.warningCount (tc : TableComparison) : ℕ :=
  (tc.comparisons.filter (fun c => c.is_warning ∧ ¬c.is_critical)).length

/-- Models `ComparisonEngine._compare_tables`: dispatch on the mode and return
nothing when no outcomes were produced. -/
def compareTables (tableName : String) (baseTable targetTable : TableData)
    (th : Thresholds) (cfg : Config) (ctype : ComparisonType) :
    Except Unit (Option TableComparison) :=
  let comps? :=
    if ctype = ComparisonType.cross_platform then
      compareCrossPlatform baseTable targetTable th cfg
    else Except.ok (compareSamePlatform baseTable targetTable th cfg)
  comps?.map (fun comps =>
    if comps.isEmpty then Option.none
    else some { table_name := tableName,
                table_description := getTableDescription cfg tableName,
                base_table := baseTable, target_table := targetTable,
                comparisons := comps })

/-- The part of a parsed report the engine reads: the metadata's
`report_type` tag and the `tables` dict. -/
structure ParserModel where
  reportType : String
  tables : List (String × TableData)

/-- Models `BaseReportParser.get_table`. -/
def getTable (p : ParserModel) (name : String) : Option TableData :=
  dictGet p.tables name

/-- Models `BaseReportParser.get_available_tables`. -/
def availableTables (p : ParserModel) : List String := p.tables.map (fun e => e.1)

/-- Models `ComparisonEngine._get_common_tables` (set intersection, modelled in
first-appearance order of the base model's tables). -/
def getCommonTables (base target : ParserModel) : List String :=
  (availableTables base).dedup.filter (fun n => n ∈ availableTables target)

/-- Truthiness of a `TableData` (`if base_table and target_table:`):
`TableData.__len__` counts rows, so a zero-row table is falsy. -/
def tableTruthy (t : TableData) : Bool := !t.rows.isEmpty

/-- The table loop of `compare_reports`: skip a name unless both models have
it and both tables are truthy; keep only comparisons that produced
outcomes; a raised exception propagates. -/
def compareSelected (base target : ParserModel) (th : Thresholds) (cfg : Config)
    (ctype : ComparisonType) : List String → Except Unit (List TableComparison)
  | [] => Except.ok []
  | name :: rest =>
    match getTable base name, getTable target name with
    | some baseTable, some targetTable =>
      if tableTruthy baseTable ∧ tableTruthy targetTable then
        match compareTables name baseTable targetTable th cfg ctype with
        | Except.ok (some tc) =>
          (compareSelected base target th cfg ctype rest).map (fun tcs => tc :: tcs)
        | Except.ok Option.none => compareSelected base target th cfg ctype rest
        | Except.error e => Except.error e
      else compareSelected base target th cfg ctype rest
    | _, _ => compareSelected base target th cfg ctype rest

/-- The summary dict of `_generate_summary`. -/
structure Summary where
  total_tables : ℕ
  total_comparisons : ℕ
  critical_count : ℕ
  warning_count : ℕ
  has_issues : Bool
deriving DecidableEq, Repr

/-- Models `ComparisonEngine._generate_summary`. -/
def generateSummary (tcs : List TableComparison) : Summary :=
  let totalCritical := (tcs.map TableComparison.criticalCount).sum
  let totalWarnings := (tcs.map TableComparison.warningCount).sum
  { total_tables := tcs.length,
    total_comparisons := (tcs.map (fun tc => tc.comparisons.length)).sum,
    critical_count := totalCritical,
    warning_count := totalWarnings,
    has_issues := totalCritical > 0 || totalWarnings > 0 }

/-- The result dict of `compare_reports` (metadata pass-through omitted). -/
structure ReportComparison where
  comparison_type : ComparisonType
  table_comparisons : List TableComparison
  thresholds : Thresholds
  summary : Summary
deriving DecidableEq, Repr

/-- The table list actually iterated: the common tables when
`selected_tables is None`, else the caller's list unchanged. -/
def selectedList (base target : ParserModel) : Option (List String) → List String
  | Option.none => getCommonTables base target
  | some l => l

/-- Models `ComparisonEngine.compare_reports`. -/
def compareReports (base target : ParserModel) (selectedTables : Option (List String))
    (cfg : Config) : Except Unit ReportComparison :=
  let ctype := determineComparisonType base.reportType target.reportType
  let th := getThresholds cfg ctype
  (compareSelected base target th cfg ctype (selectedList base target selectedTables)).map
    (fun tcs =>
      { comparison_type := ctype, table_comparisons := tcs, thresholds := th,
        summary := generateSummary tcs })

/-! Section: HTML table extraction (`_parse_html_table`, identical in both parsers) -/

/-- The tag of a table cell element. -/
inductive CellTag where
  | th
  | td
deriving DecidableEq, Repr

/-- A cell element of a `<tr>`: its tag and its text content. -/
structure HtmlCell where
  tag : CellTag
  text : String
deriving DecidableEq, Repr

/-- One `<tr>` element: its cell elements in document order. -/
abbrev HtmlRow := List HtmlCell

/-- Models `row_data[headers[i]] = normalize(cell_i)` over a dict. -/
def buildRow (headers : List String) (cellTexts : List String) : Row :=
  (headers.zip cellTexts).foldl (fun d p => dictInsert d p.1 (normalizeValue p.2)) []

/-- The header row of `_parse_html_table`: the stripped texts of all `th`
and `td` cells of the first `<tr>` (empty when the table has no rows). -/
def htmlHeaders (trs : List HtmlRow) : List String :=
  match trs.head? with
  | some headerRow => headerRow.map (fun c => String.mk (pyStrip c.text.toList))
  | Option.none => []

/-- One data `<tr>` of `_parse_html_table`: its `<td>` cells become a row
only if they are nonempty and match the header count
(`if cells and len(cells) == len(headers)`). -/
def htmlDataRow (headers : List String) (tr : HtmlRow) : Option Row :=
  if tr.filter (fun c => c.tag = CellTag.td) ≠ [] ∧
      (tr.filter (fun c => c.tag = CellTag.td)).length = headers.length then
    some (buildRow headers ((tr.filter (fun c => c.tag = CellTag.td)).map
      (fun c => String.mk (pyStrip c.text.toList))))
  else Option.none

/-- Models `_parse_html_table` (textually identical in `AWRParser` and
`PgProfileParser`). -/
def parseHtmlTable (trs : List HtmlRow) (tableName : String) : TableData :=
  { name := tableName, headers := htmlHeaders trs,
    rows := (trs.drop 1).filterMap (htmlDataRow (htmlHeaders trs)) }

/-! Section: decimal strings with thousands separators (for the round-trip claim) -/

/-- The character of a decimal digit (`9` for any out-of-range input). -/
def digitToChar (d : ℕ) : Char :=
  if d = 0 then '0' else if d = 1 then '1' else if d = 2 then '2'
  else if d = 3 then '3' else if d = 4 then '4' else if d = 5 then '5'
  else if d = 6 then '6' else if d = 7 then '7' else if d = 8 then '8' else '9'

/-- Little-endian decimal digits of `n`, by fuelled structural recursion. -/
def natDigitsAux : ℕ → ℕ → List ℕ
  | 0, _ => []
  | _ + 1, 0 => []
  | fuel + 1, n + 1 => ((n + 1) % 10) :: natDigitsAux fuel ((n + 1) / 10)

/-- Little-endian decimal digits of `n` (`[]` for `0`). -/
def natDecDigits (n : ℕ) : List ℕ := natDigitsAux n n

/-- The big-endian decimal character string of `n`. -/
def decimalChars (n : ℕ) : List Char :=
  if n = 0 then ['0'] else ((natDecDigits n).map digitToChar).reverse

/-- Insert a comma after every third character (input and output reversed,
so the commas separate groups of three counted from the right). -/
def groupRev : List Char → List Char
  | [] => []
  | [a] => [a]
  | [a, b] => [a, b]
  | [a, b, c] => [a, b, c]
  | a :: b :: c :: d :: rest => a :: b :: c :: ',' :: groupRev (d :: rest)

/-- The decimal string of `n` with thousands-separator commas. -/
def withCommas (n : ℕ) : String :=
  String.mk ((groupRev (decimalChars n).reverse).reverse)

/-- Is a value a Python string? -/
def Value.isStr : Value → Bool
  | Value.str _ => true
  | _ => false

/-- The rational carried by a numeric value (`0` for `None`/text); with it
the mean computed by `_compare_cross_platform` over a fully numeric column
is literally `(values.map valNum).sum / values.length`. -/
def valNum : Value → ℚ
  | Value.int n => (n : ℚ)
  | Value.float q => q
  | _ => 0

/-- Value of a little-endian digit list. -/
def leVal (ds : List ℕ) : ℕ := ds.foldr (fun d acc => d + 10 * acc) 0

/-- Spec-side description of the outcomes one matched row pair produces
(claims C4/C10): one outcome per numeric-classified column of the base
table present in the target row with both values non-null, in header
order. -/
def samePlatformRowSpec (headers : List String) (th : Thresholds) (cfg : Config)
    (baseRow targetRow : Row) : List ComparisonResult :=
  (headers.filter (fun c => Row.hasKey targetRow c ∧ isNumericColumn cfg c ∧
      Row.getV baseRow c ≠ Value.none ∧ Row.getV targetRow c ≠ Value.none)).map
    (fun c => compareValues c (Row.getV baseRow c) (Row.getV targetRow c) th)

/-- Spec-side description of cross-engine column outcomes (claim C5): one
outcome per numeric-classified column with nonempty value lists on both
sides, comparing the arithmetic means of the non-null values. -/
def crossColumnSpec (baseTable targetTable : TableData) (th : Thresholds)
    (cfg : Config) (hs : List String) : List ComparisonResult :=
  (hs.filter (fun c => isNumericColumn cfg c ∧ columnValues baseTable c ≠ [] ∧
      columnValues targetTable c ≠ [])).map
    (fun c => compareValues c
      (Value.float (((columnValues baseTable c).map valNum).sum /
        (columnValues baseTable c).length))
      (Value.float (((columnValues targetTable c).map valNum).sum /
        (columnValues targetTable c).length)) th)

/-- Concrete tables for the cross-engine mean scenario: column `"Time"`,
baseline values 100/200/300, target values 180/220. -/
def c5Base : TableData :=
  ⟨"io_statistics", ["Time"],
    [[("Time", Value.int 100)], [("Time", Value.int 200)], [("Time", Value.int 300)]]⟩

/-- Target table of the cross-engine mean scenario. -/
def c5Target : TableData :=
  ⟨"io_statistics", ["Time"], [[("Time", Value.int 180)], [("Time", Value.int 220)]]⟩

/-- A concrete configuration used by the concrete scenarios. -/
def demoCfg : Config := ⟨⟨some 15, some 30⟩, ⟨some 20, some 50⟩, [], []⟩

/-- A baseline table whose numeric column holds a text cell that failed
normalization. -/
def c6Base : TableData := ⟨"load_profile", ["Time"], [[("Time", Value.str "abc")]]⟩

/-- A numeric target table for the same column. -/
def c6Target : TableData := ⟨"load_profile", ["Time"], [[("Time", Value.int 100)]]⟩

/-- A markup table with one well-formed and one malformed data row. -/
def c7Trs : List HtmlRow :=
  [[⟨CellTag.th, "A"⟩, ⟨CellTag.th, "B"⟩],
   [⟨CellTag.td, "1"⟩, ⟨CellTag.td, "2"⟩],
   [⟨CellTag.td, "3"⟩]]

/-- Baseline model: table `"a"` exists only here; table `"t"` in both. -/
def c8BaseModel : ParserModel :=
  ⟨"oracle_awr",
    [("a", ⟨"a", ["Metric", "Val"], [[("Metric", Value.str "x"), ("Val", Value.int 1)]]⟩),
     ("t", ⟨"t", ["Metric", "Val"], [[("Metric", Value.str "m"), ("Val", Value.int 1)]]⟩)]⟩

/-- Target model: only table `"t"`. -/
def c8TargetModel : ParserModel :=
  ⟨"oracle_awr",
    [("t", ⟨"t", ["Metric", "Val"], [[("Metric", Value.str "m"), ("Val", Value.int 2)]]⟩)]⟩

/-- The comparison result of the scenario-4 run (fallback is never hit). -/
def c8Res : ReportComparison :=
  match compareReports c8BaseModel c8TargetModel (some ["a", "t"]) demoCfg with
  | Except.ok r => r
  | Except.error _ =>
    ⟨ComparisonType.oracle_oracle, [], ⟨Option.none, Option.none⟩, ⟨0, 0, 0, 0, false⟩⟩

/-- Baseline model for the table-selection scenario. -/
def c9Base : ParserModel :=
  ⟨"oracle_awr",
    [("t", ⟨"t", ["Metric", "Val"], [[("Metric", Value.str "m"), ("Val", Value.int 1)]]⟩)]⟩

/-- Target model for the table-selection scenario. -/
def c9Target : ParserModel :=
  ⟨"oracle_awr",
    [("t", ⟨"t", ["Metric", "Val"], [[("Metric", Value.str "m"), ("Val", Value.int 2)]]⟩)]⟩

/-! Section: theorems -/

/-- The function `compareValues` keeps the metric name. -/
lemma compareValues_metric (m : String) (v₁ v₂ : Value) (th : Thresholds) :
    (compareValues m v₁ v₂ th).metric_name = m := by
  unfold compareValues
  cases pyFloatOfValue v₁ <;> cases pyFloatOfValue v₂ <;> rfl

/-- C1: in `_compare_values`, if either value fails coercion to a number the
outcome has null absolute and percent change and both flags false; otherwise
the absolute change is target − baseline, and the percent change is
absolute ÷ |baseline| × 100 when the baseline is nonzero and null when the
baseline is zero.  The function is total: it raises no exception and, over
`ℚ`, can produce no infinity. -/
theorem compare_values_spec (m : String) (v₁ v₂ : Value) (th : Thresholds) :
    ((pyFloatOfValue v₁ = Option.none ∨ pyFloatOfValue v₂ = Option.none) →
      (compareValues m v₁ v₂ th).absolute_change = Option.none ∧
      (compareValues m v₁ v₂ th).percent_change = Option.none ∧
      (compareValues m v₁ v₂ th).is_warning = false ∧
      (compareValues m v₁ v₂ th).is_critical = false) ∧
    (∀ b t : ℚ, pyFloatOfValue v₁ = some b → pyFloatOfValue v₂ = some t →
      (compareValues m v₁ v₂ th).absolute_change = some (t - b) ∧
      (b ≠ 0 → (compareValues m v₁ v₂ th).percent_change = some ((t - b) / |b| * 100)) ∧
      (b = 0 → (compareValues m v₁ v₂ th).percent_change = Option.none)) := by
  constructor
  · intro h
    unfold compareValues
    rcases h with h | h
    · rw [h]
      cases pyFloatOfValue v₂ <;> exact ⟨rfl, rfl, rfl, rfl⟩
    · rw [h]
      cases pyFloatOfValue v₁ <;> exact ⟨rfl, rfl, rfl, rfl⟩
  · intro b t hb ht
    unfold compareValues
    rw [hb, ht]
    refine ⟨rfl, fun hb0 => ?_, fun hb0 => ?_⟩
    · show (if b ≠ 0 then some ((t - b) / |b| * 100) else Option.none) = _
      rw [if_pos hb0]
    · show (if b ≠ 0 then some ((t - b) / |b| * 100) else Option.none) = _
      rw [if_neg (by simp [hb0])]

/-- Witness for C1 at concrete inputs. -/
theorem compare_values_spec_witness :
    (compareValues "x" (Value.int 4) (Value.int 6)
        ⟨some 15, some 30⟩).absolute_change = some 2 ∧
    (compareValues "x" (Value.int 4) (Value.int 6)
        ⟨some 15, some 30⟩).percent_change = some 50 ∧
    (compareValues "x" (Value.str "abc") (Value.int 6)
        ⟨some 15, some 30⟩).absolute_change = Option.none := by
  have h₁ := (compare_values_spec "x" (Value.int 4) (Value.int 6) ⟨some 15, some 30⟩).2
    ((4 : ℤ) : ℚ) ((6 : ℤ) : ℚ) rfl rfl
  have h₂ := (compare_values_spec "x" (Value.str "abc") (Value.int 6) ⟨some 15, some 30⟩).1
    (Or.inl (by decide))
  refine ⟨?_, ?_, h₂.1⟩
  · rw [h₁.1]; norm_num
  · rw [h₁.2.1 (by norm_num)]; norm_num

/-- C2: for an outcome with a non-null percent change and explicit thresholds
`W`/`C`, `is_critical` holds iff `|percent| ≥ C`, `is_warning` holds iff
`C > |percent| ≥ W`, and the two flags are never both set. -/
theorem classification_spec (m : String) (v₁ v₂ : Value) (W C p : ℚ)
    (hp : (compareValues m v₁ v₂ ⟨some W, some C⟩).percent_change = some p) :
    ((compareValues m v₁ v₂ ⟨some W, some C⟩).is_critical = true ↔ C ≤ |p|) ∧
    ((compareValues m v₁ v₂ ⟨some W, some C⟩).is_warning = true ↔ W ≤ |p| ∧ |p| < C) ∧
    ¬((compareValues m v₁ v₂ ⟨some W, some C⟩).is_warning = true ∧
      (compareValues m v₁ v₂ ⟨some W, some C⟩).is_critical = true) := by
  unfold compareValues at hp ⊢
  cases h₁ : pyFloatOfValue v₁ <;> cases h₂ : pyFloatOfValue v₂ <;>
    rw [h₁, h₂] at hp <;> try simp_all
  case some.some b t =>
    by_cases hC : C ≤ |p|
    · simp only [ge_iff_le, if_pos hC]
      refine ⟨by simp [hC], ?_, by simp⟩
      simp only [show ((false, true).1 = true) = False by simp, false_iff]
      exact fun h => absurd hC (not_le.mpr h.2)
    · simp only [ge_iff_le, if_neg hC]
      by_cases hW : W ≤ |p|
      · simp only [if_pos hW]
        refine ⟨by simp [hC], ?_, by simp⟩
        simp only [show ((true, false).1 = true) = True by simp, true_iff]
        exact ⟨hW, not_le.mp hC⟩
      · simp only [if_neg hW]
        exact ⟨by simp [hC], by simp [hW], by simp⟩

/-- Witness for C2: thresholds 15/30; |percent| = 30 is critical,
29.999 is warning only, 14.999 is neither. -/
theorem classification_spec_witness :
    (compareValues "m" (Value.int 1000) (Value.int 1300)
        ⟨some 15, some 30⟩).is_critical = true ∧
    (compareValues "m" (Value.int 100000) (Value.int 129999)
        ⟨some 15, some 30⟩).is_warning = true ∧
    (compareValues "m" (Value.int 100000) (Value.int 129999)
        ⟨some 15, some 30⟩).is_critical = false ∧
    (compareValues "m" (Value.int 100000) (Value.int 114999)
        ⟨some 15, some 30⟩).is_warning = false ∧
    (compareValues "m" (Value.int 100000) (Value.int 114999)
        ⟨some 15, some 30⟩).is_critical = false := by
  have h₁ := classification_spec "m" (Value.int 1000) (Value.int 1300) 15 30 30
    (by with_unfolding_all rfl)
  have h₂ := classification_spec "m" (Value.int 100000) (Value.int 129999) 15 30
    (29999 / 1000) (by with_unfolding_all rfl)
  have h₃ := classification_spec "m" (Value.int 100000) (Value.int 114999) 15 30
    (14999 / 1000) (by with_unfolding_all rfl)
  have a₁ : |(30 : ℚ)| = 30 := abs_of_nonneg (by norm_num)
  have a₂ : |(29999 / 1000 : ℚ)| = 29999 / 1000 := abs_of_nonneg (by norm_num)
  have a₃ : |(14999 / 1000 : ℚ)| = 14999 / 1000 := abs_of_nonneg (by norm_num)
  rw [a₁] at h₁; rw [a₂] at h₂; rw [a₃] at h₃
  refine ⟨h₁.1.mpr (by norm_num), h₂.2.1.mpr ⟨by norm_num, by norm_num⟩, ?_, ?_, ?_⟩
  · rcases hc : (compareValues "m" (Value.int 100000) (Value.int 129999)
        ⟨some 15, some 30⟩).is_critical with _ | _
    · rfl
    · exact absurd (h₂.1.mp hc) (by norm_num)
  · rcases hw : (compareValues "m" (Value.int 100000) (Value.int 114999)
        ⟨some 15, some 30⟩).is_warning with _ | _
    · rfl
    · exact absurd (h₃.2.1.mp hw).1 (by norm_num)
  · rcases hc : (compareValues "m" (Value.int 100000) (Value.int 114999)
        ⟨some 15, some 30⟩).is_critical with _ | _
    · rfl
    · exact absurd (h₃.1.mp hc) (by norm_num)

/-- The function `digitToChar` always yields an ASCII digit that is not a separator,
sign, dot, percent, exponent letter or whitespace character. -/
lemma digitToChar_props (d : ℕ) :
    isDigitChar (digitToChar d) = true ∧ isPySpace (digitToChar d) = false ∧
    digitToChar d ≠ ',' ∧ digitToChar d ≠ '.' ∧ digitToChar d ≠ '+' ∧
    digitToChar d ≠ '-' := by
  unfold digitToChar
  repeat (first | exact (by decide) | split)

/-- The function `charVal` inverts `digitToChar` on digits. -/
lemma charVal_digitToChar (d : ℕ) (h : d < 10) : charVal (digitToChar d) = d := by
  interval_cases d <;> decide

/-- With enough fuel, `natDigitsAux` produces the decimal digits of `n`. -/
lemma leVal_natDigitsAux : ∀ fuel n, n ≤ fuel → leVal (natDigitsAux fuel n) = n := by
  intro fuel
  induction fuel with
  | zero => intro n hn; interval_cases n; rfl
  | succ fuel ih =>
    intro n hn
    match n with
    | 0 => rfl
    | m + 1 =>
      have hdiv : (m + 1) / 10 ≤ fuel := by
        have h1 : (m + 1) / 10 < m + 1 := Nat.div_lt_self (Nat.succ_pos m) (by omega)
        omega
      show leVal (((m + 1) % 10) :: natDigitsAux fuel ((m + 1) / 10)) = m + 1
      have : leVal (((m + 1) % 10) :: natDigitsAux fuel ((m + 1) / 10))
          = (m + 1) % 10 + 10 * leVal (natDigitsAux fuel ((m + 1) / 10)) := rfl
      rw [this, ih _ hdiv]
      omega

/-- Every digit of `natDigitsAux` is below 10. -/
lemma natDigitsAux_lt : ∀ fuel n d, d ∈ natDigitsAux fuel n → d < 10 := by
  intro fuel
  induction fuel with
  | zero => intro n d hd; simp [natDigitsAux] at hd
  | succ fuel ih =>
    intro n d hd
    match n with
    | 0 => simp [natDigitsAux] at hd
    | m + 1 =>
      rcases List.mem_cons.mp hd with h | h
      · omega
      · exact ih _ _ h

/-- Reading `digitsToNat` over an appended digit. -/
lemma digitsToNat_append (xs : List Char) (c : Char) :
    digitsToNat (xs ++ [c]) = 10 * digitsToNat xs + charVal c := by
  simp [digitsToNat, List.foldl_append]

/-- Reading back a reversed digit-character list. -/
lemma digitsToNat_reverse_map (ds : List ℕ) (h : ∀ d ∈ ds, d < 10) :
    digitsToNat ((ds.map digitToChar).reverse) = leVal ds := by
  induction ds with
  | nil => rfl
  | cons d rest ih =>
    have hrest : ∀ x ∈ rest, x < 10 := fun x hx => h x (List.mem_cons_of_mem _ hx)
    have hd : d < 10 := h d (List.mem_cons_self d rest)
    calc digitsToNat (((d :: rest).map digitToChar).reverse)
        = digitsToNat ((rest.map digitToChar).reverse ++ [digitToChar d]) := by
          simp
      _ = 10 * digitsToNat ((rest.map digitToChar).reverse) + charVal (digitToChar d) :=
          digitsToNat_append _ _
      _ = 10 * leVal rest + d := by rw [ih hrest, charVal_digitToChar d hd]
      _ = leVal (d :: rest) := by show _ = d + 10 * leVal rest; omega

/-- Every character of `decimalChars` is an ASCII digit. -/
lemma decimalChars_digits (n : ℕ) : ∀ c ∈ decimalChars n, isDigitChar c = true := by
  intro c hc
  unfold decimalChars at hc
  by_cases hn : n = 0
  · rw [if_pos hn] at hc
    obtain rfl : c = '0' := by simpa using hc
    decide
  · rw [if_neg hn] at hc
    rw [List.mem_reverse] at hc
    obtain ⟨d, _, rfl⟩ := List.mem_map.mp hc
    exact (digitToChar_props d).1

/-- An ASCII digit is none of the special characters of the normalizer. -/
lemma isDigitChar_props (c : Char) (h : isDigitChar c = true) :
    isPySpace c = false ∧ c ≠ ',' ∧ c ≠ '.' ∧ c ≠ '+' ∧ c ≠ '-' := by
  refine ⟨?_, ?_, ?_, ?_, ?_⟩
  · cases hsp : isPySpace c
    · rfl
    · exfalso
      unfold isPySpace at hsp
      simp only [Bool.or_eq_true, decide_eq_true_eq] at hsp
      rcases hsp with ((((rfl | rfl) | rfl) | rfl) | rfl) | rfl <;> exact absurd h (by decide)
  · rintro rfl; exact absurd h (by decide)
  · rintro rfl; exact absurd h (by decide)
  · rintro rfl; exact absurd h (by decide)
  · rintro rfl; exact absurd h (by decide)

/-- The function `groupRev` only inserts commas. -/
lemma groupRev_mem (l : List Char) (c : Char) (hc : c ∈ groupRev l) :
    c ∈ l ∨ c = ',' := by
  induction l using groupRev.induct with
  | case1 => simp [groupRev] at hc
  | case2 a => exact Or.inl hc
  | case3 a b => exact Or.inl hc
  | case4 a b c' => exact Or.inl hc
  | case5 a b c' d rest ih =>
    simp only [groupRev, List.mem_cons] at hc
    rcases hc with rfl | rfl | rfl | rfl | hc
    · simp
    · simp
    · simp
    · exact Or.inr rfl
    · rcases ih hc with h | h
      · exact Or.inl (by simp only [List.mem_cons] at h ⊢; tauto)
      · exact Or.inr h

/-- Filtering the commas out of `groupRev` recovers the input. -/
lemma groupRev_filter (l : List Char) (h : ∀ c ∈ l, ¬c = ',') :
    (groupRev l).filter (fun c => c ≠ ',') = l := by
  induction l using groupRev.induct with
  | case1 => rfl
  | case2 a => simp [groupRev, h a (by simp)]
  | case3 a b => simp [groupRev, h a (by simp), h b (by simp)]
  | case4 a b c => simp [groupRev, h a (by simp), h b (by simp), h c (by simp)]
  | case5 a b c d rest ih =>
    have hrec := ih (fun x hx => h x (by simp only [List.mem_cons] at hx ⊢; tauto))
    simp [groupRev, h a (by simp), h b (by simp), h c (by simp)]
    simpa using hrec

/-- The function `dropWhile` is the identity when no element satisfies the predicate. -/
lemma dropWhile_eq_self_of {p : Char → Bool} (l : List Char)
    (h : ∀ c ∈ l, p c = false) : l.dropWhile p = l := by
  cases l with
  | nil => rfl
  | cons c rest => rw [List.dropWhile_cons, h c (by simp)]; simp

/-- Python `str.strip()` leaves a string with no whitespace unchanged. -/
lemma pyStrip_eq_self (l : List Char) (h : ∀ c ∈ l, isPySpace c = false) :
    pyStrip l = l := by
  unfold pyStrip
  rw [dropWhile_eq_self_of l h,
    dropWhile_eq_self_of _ (fun c hc => h c (List.mem_reverse.mp hc)),
    List.reverse_reverse]

/-- Python `str.strip()` of an all-whitespace string is empty. -/
lemma pyStrip_eq_nil (l : List Char) (h : ∀ c ∈ l, isPySpace c = true) :
    pyStrip l = [] := by
  unfold pyStrip
  have h1 : l.dropWhile isPySpace = [] := by
    induction l with
    | nil => rfl
    | cons c rest ih =>
      rw [List.dropWhile_cons, h c (by simp)]
      exact ih (fun x hx => h x (by simp [hx]))
  rw [h1]
  rfl

/-- A dot-free character list reports `contains '.' = false`. -/
lemma contains_dot_false (l : List Char) (h : ∀ c ∈ l, ¬c = '.') :
    l.contains '.' = false := by
  induction l with
  | nil => rfl
  | cons c rest ih =>
    have hrest := ih (fun x hx => h x (by simp [hx]))
    have hc : ('.' == c) = false := beq_eq_false_iff_ne.mpr (fun he => h c (by simp) he.symm)
    simp only [List.contains_cons, hc, Bool.false_or]
    exact hrest

/-- The function `digitsToNat` reads `decimalChars` back. -/
lemma digitsToNat_decimalChars (n : ℕ) : digitsToNat (decimalChars n) = n := by
  unfold decimalChars
  by_cases hn : n = 0
  · rw [if_pos hn, hn]; decide
  · rw [if_neg hn]
    unfold natDecDigits
    rw [digitsToNat_reverse_map _ (natDigitsAux_lt n n)]
    exact leVal_natDigitsAux n n le_rfl

/-- The decimal string of `n` is nonempty. -/
lemma decimalChars_ne_nil (n : ℕ) : decimalChars n ≠ [] := by
  unfold decimalChars
  by_cases hn : n = 0
  · rw [if_pos hn]; simp
  · rw [if_neg hn]
    cases n with
    | zero => exact absurd rfl hn
    | succ m => simp [natDecDigits, natDigitsAux]

/-- Normalization yields an integer value when the comma-stripped input has
no dot and parses as an int. -/
lemma normalizeValue_eq_int (s : String) (m : ℤ)
    (hne : ¬(pyStrip s.toList = []))
    (hdot : ((pyStrip s.toList).filter (fun c => c ≠ ',')).contains '.' = false)
    (hint : pyIntParse ((pyStrip s.toList).filter (fun c => c ≠ ',')) = some m) :
    normalizeValue s = Value.int m := by
  simp only [normalizeValue]
  rw [if_neg hne, if_neg (fun hcontra => absurd (hdot ▸ hcontra) (by simp)), hint]
  rfl

/-- Normalization returns a string only in the text fallback, where the
result is the stripped input. -/
lemma normalizeValue_str (s t : String) (h : normalizeValue s = Value.str t) :
    t = String.mk (pyStrip s.toList) := by
  simp only [normalizeValue] at h
  by_cases h0 : pyStrip s.toList = []
  · rw [if_pos h0] at h
    exact absurd h (by simp)
  · rw [if_neg h0] at h
    split at h
    next r heq =>
      split at heq
      · rcases Option.map_eq_some'.mp heq with ⟨q, _, rfl⟩
        exact absurd h (by simp)
      · rcases Option.map_eq_some'.mp heq with ⟨q, _, rfl⟩
        exact absurd h (by simp)
    next heq =>
      split at h
      next r heq2 =>
        split at heq2
        · rcases Option.map_eq_some'.mp heq2 with ⟨q, _, rfl⟩
          exact absurd h (by simp)
        · exact absurd heq2 (by simp)
      next heq2 =>
        split at h
        · exact absurd h (by simp)
        · exact (Value.str.inj h).symm

/-- C3: `_normalize_value` never raises and returns: null on empty or
whitespace-only input; the integer `n` for the decimal string of `n` with
thousands-separator commas; the bare float for a `%`-suffixed number
(`"12.5%"` → 12.5); the prefix times the binary multiplier for a K/M/G/T
suffix (`"2M"` → 2 · 1048576); and otherwise the trimmed input unchanged
(whenever the result is text it is exactly the stripped input). -/
theorem normalize_value_spec :
    (∀ s : String, (∀ c ∈ s.toList, isPySpace c = true) → normalizeValue s = Value.none) ∧
    (∀ n : ℕ, normalizeValue (withCommas n) = Value.int (n : ℤ)) ∧
    normalizeValue "12.5%" = Value.float (25 / 2) ∧
    normalizeValue "2M" = Value.float (2 * 1048576) ∧
    (∀ s t, normalizeValue s = Value.str t → t = String.mk (pyStrip s.toList)) := by
  refine ⟨?_, ?_, by with_unfolding_all rfl, by with_unfolding_all rfl, normalizeValue_str⟩
  · intro s hs
    simp only [normalizeValue]
    rw [if_pos (pyStrip_eq_nil _ hs)]
  · intro n
    have hdigits := decimalChars_digits n
    have hdec_ne := decimalChars_ne_nil n
    have hnocomma : ∀ c ∈ (decimalChars n).reverse, ¬c = ',' :=
      fun c hc => (isDigitChar_props c (hdigits c (List.mem_reverse.mp hc))).2.1
    have htoList : (withCommas n).toList = (groupRev (decimalChars n).reverse).reverse := rfl
    have hmemL : ∀ c ∈ (groupRev (decimalChars n).reverse).reverse,
        isPySpace c = false := by
      intro c hc
      rcases groupRev_mem _ c (List.mem_reverse.mp hc) with h | rfl
      · exact (isDigitChar_props c (hdigits c (List.mem_reverse.mp h))).1
      · decide
    have hstrip : pyStrip ((withCommas n).toList)
        = (groupRev (decimalChars n).reverse).reverse := by
      rw [htoList]; exact pyStrip_eq_self _ hmemL
    have hLne : (groupRev (decimalChars n).reverse).reverse ≠ [] := by
      intro h0
      have hg : groupRev (decimalChars n).reverse = [] := by
        simpa using congrArg List.reverse h0
      have hfil := groupRev_filter (decimalChars n).reverse hnocomma
      rw [hg] at hfil
      exact hdec_ne (by simpa using congrArg List.reverse hfil.symm)
    have hclean : ((groupRev (decimalChars n).reverse).reverse).filter
        (fun c => c ≠ ',') = decimalChars n := by
      rw [List.filter_reverse, groupRev_filter _ hnocomma, List.reverse_reverse]
    have hint : pyIntParse (decimalChars n) = some (n : ℤ) := by
      rcases hd : decimalChars n with _ | ⟨c0, cs⟩
      · exact absurd hd hdec_ne
      · have hc0 : isDigitChar c0 = true := hdigits c0 (by rw [hd]; simp)
        have hprops := isDigitChar_props c0 hc0
        show pyIntParse (c0 :: cs) = _
        simp only [pyIntParse]
        rw [if_neg hprops.2.2.2.1, if_neg hprops.2.2.2.2]
        have hall : (c0 :: cs).all isDigitChar = true :=
          List.all_eq_true.mpr (fun c hc => hdigits c (by rw [hd]; exact hc))
        unfold parseDigits
        rw [if_pos ⟨by simp, hall⟩]
        rw [← hd, digitsToNat_decimalChars n]
        rfl
    have hdotdec : (decimalChars n).contains '.' = false :=
      contains_dot_false _ (fun c hc => (isDigitChar_props c (hdigits c hc)).2.2.1)
    exact normalizeValue_eq_int _ _ (by rw [hstrip]; exact hLne)
      (by rw [hstrip, hclean]; exact hdotdec)
      (by rw [hstrip, hclean]; exact hint)

/-- Witness for C3 at concrete inputs. -/
theorem normalize_value_spec_witness :
    withCommas 1234567 = "1,234,567" ∧
    normalizeValue "1,234,567" = Value.int 1234567 ∧
    normalizeValue " \t " = Value.none := by
  have h := normalize_value_spec
  have h1 : withCommas 1234567 = "1,234,567" := by decide
  exact ⟨h1, h1 ▸ h.2.1 1234567, h.1 " \t " (by decide)⟩

/-- Reading `dictGet` after a `dictInsert`. -/
lemma dictGet_dictInsert {α : Type} (d : List (String × α)) (k k' : String) (v : α) :
    dictGet (dictInsert d k v) k' = if k = k' then some v else dictGet d k' := by
  induction d with
  | nil => rfl
  | cons p rest ih =>
    show dictGet (if p.1 = k then (k, v) :: rest else p :: dictInsert rest k v) k' = _
    by_cases hp : p.1 = k
    · rw [if_pos hp]
      show (if k = k' then some v else dictGet rest k') = _
      by_cases hk : k = k'
      · rw [if_pos hk, if_pos hk]
      · rw [if_neg hk, if_neg hk]
        show _ = if p.1 = k' then some p.2 else dictGet rest k'
        rw [if_neg (fun he => hk (hp.symm.trans he))]
    · rw [if_neg hp]
      show (if p.1 = k' then some p.2 else dictGet (dictInsert rest k v) k') = _
      rw [ih]
      by_cases hpk : p.1 = k'
      · rw [if_pos hpk, if_neg (fun he => hp (hpk.trans he.symm))]
        show _ = if p.1 = k' then some p.2 else dictGet rest k'
        rw [if_pos hpk]
      · rw [if_neg hpk]
        have hr : dictGet (p :: rest) k' = dictGet rest k' := by
          show (if p.1 = k' then some p.2 else dictGet rest k') = _
          rw [if_neg hpk]
        rw [hr]

/-- Reading `getLast?` of a cons. -/
lemma getLast?_cons_or {α : Type} (x : α) (l : List α) :
    (x :: l).getLast? = l.getLast?.or (some x) := by
  cases l with
  | nil => rfl
  | cons y ys =>
    rw [List.getLast?_cons_cons]
    cases h : (y :: ys).getLast? with
    | none => exact absurd h (by simp)
    | some z => rfl

/-- The index built by the dict comprehension resolves a key to the last
row in row order carrying that key. -/
lemma dictGet_buildIndex_aux : ∀ (rows : List Row) (d : List (String × Row)) (k : String),
    dictGet (rows.foldl (fun d row => dictInsert d (getRowKey row) row) d) k
      = ((rows.filter (fun r => getRowKey r = k)).getLast?).or (dictGet d k) := by
  intro rows
  induction rows with
  | nil => intro d k; simp
  | cons r rest ih =>
    intro d k
    show dictGet (rest.foldl _ (dictInsert d (getRowKey r) r)) k = _
    rw [ih, dictGet_dictInsert]
    by_cases hk : getRowKey r = k
    · rw [if_pos hk, List.filter_cons_of_pos (by simp [hk]), getLast?_cons_or,
        Option.or_assoc]
      rfl
    · rw [if_neg hk, List.filter_cons_of_neg (by simp [hk])]

/-- Lookup `target_index.get(key)` yields the last matching target row. -/
lemma dictGet_buildIndex (rows : List Row) (k : String) :
    dictGet (buildIndex rows) k = (rows.filter (fun r => getRowKey r = k)).getLast? := by
  unfold buildIndex
  rw [dictGet_buildIndex_aux,
    show dictGet ([] : List (String × Row)) k = Option.none from rfl, Option.or_none]

/-- A guarded `filterMap` is a `map` over a `filter`. -/
lemma filterMap_eq_map_filter {α β : Type} (l : List α) (g : α → β)
    (p : α → Bool) (F : α → Option β)
    (hF : ∀ x, F x = if p x then some (g x) else Option.none) :
    l.filterMap F = (l.filter p).map g := by
  induction l with
  | nil => rfl
  | cons a rest ih =>
    rw [List.filterMap_cons, hF a]
    by_cases hp : p a = true
    · rw [if_pos hp, List.filter_cons_of_pos hp]
      simp only [List.map_cons]
      rw [ih]
    · rw [if_neg (by simp [hp]), List.filter_cons_of_neg (by simp [hp])]
      exact ih

/-- One matched base row produces exactly the spec-side outcome list for the
last target row carrying its key. -/
lemma samePlatformRow_eq (targetRows : List Row) (headers : List String)
    (th : Thresholds) (cfg : Config) (baseRow t₀ : Row)
    (hlast : (targetRows.filter (fun r => getRowKey r = getRowKey baseRow)).getLast?
      = some t₀) :
    samePlatformRow (buildIndex targetRows) headers th cfg baseRow
      = samePlatformRowSpec headers th cfg baseRow t₀ := by
  unfold samePlatformRow
  rw [dictGet_buildIndex, hlast]
  show (if rowTruthy t₀ = true then
      headers.filterMap (fun header =>
        if Row.hasKey t₀ header ∧ isNumericColumn cfg header then
          let baseValue := Row.getV baseRow header
          let targetValue := Row.getV t₀ header
          if baseValue ≠ Value.none ∧ targetValue ≠ Value.none then
            some (compareValues header baseValue targetValue th)
          else Option.none
        else Option.none)
    else []) = _
  by_cases htr : rowTruthy t₀ = true
  · rw [if_pos htr]
    unfold samePlatformRowSpec
    apply filterMap_eq_map_filter
    intro x
    by_cases h1 : Row.hasKey t₀ x = true ∧ isNumericColumn cfg x = true
    · by_cases h2 : Row.getV baseRow x ≠ Value.none ∧ Row.getV t₀ x ≠ Value.none
      · rw [if_pos (by simpa using h1), if_pos h2, if_pos (by simp [h1.1, h1.2, h2.1, h2.2])]
      · rw [if_pos (by simpa using h1), if_neg h2,
          if_neg (by simp only [decide_eq_true_eq]; tauto)]
    · rw [if_neg (by simpa using h1), if_neg (by simp only [decide_eq_true_eq]; tauto)]
  · rw [if_neg htr]
    have ht0 : t₀ = [] := by
      unfold rowTruthy at htr
      simpa using htr
    subst ht0
    unfold samePlatformRowSpec
    rw [List.filter_eq_nil_iff.mpr (fun c _ => by simp [Row.hasKey])]
    rfl

/-- An unmatched base row produces no outcomes. -/
lemma samePlatformRow_none (targetRows : List Row) (headers : List String)
    (th : Thresholds) (cfg : Config) (baseRow : Row)
    (hnone : ∀ targetRow ∈ targetRows, getRowKey targetRow ≠ getRowKey baseRow) :
    samePlatformRow (buildIndex targetRows) headers th cfg baseRow = [] := by
  unfold samePlatformRow
  rw [dictGet_buildIndex,
    List.filter_eq_nil_iff.mpr (fun r hr => by simpa using hnone r hr)]
  rfl

/-- In a row list with pairwise distinct keys, filtering by the key of a
member yields exactly that member. -/
lemma filter_key_singleton (rows : List Row) (hkeys : (rows.map getRowKey).Nodup)
    (r : Row) (hr : r ∈ rows) (k : String) (hk : getRowKey r = k) :
    rows.filter (fun x => getRowKey x = k) = [r] := by
  induction rows with
  | nil => cases hr
  | cons a rest ih =>
    simp only [List.map_cons, List.nodup_cons] at hkeys
    obtain ⟨hnotin, hnodup⟩ := hkeys
    rcases List.mem_cons.mp hr with rfl | hr'
    · rw [List.filter_cons_of_pos (by simp [hk])]
      have hrest : rest.filter (fun x => getRowKey x = k) = [] :=
        List.filter_eq_nil_iff.mpr (fun x hx => by
          simp only [decide_eq_true_eq]
          intro he
          exact hnotin (hk ▸ he ▸ List.mem_map_of_mem getRowKey hx))
      rw [hrest]
    · have hak : ¬(getRowKey a = k) := fun he =>
        hnotin (he ▸ hk ▸ List.mem_map_of_mem getRowKey hr')
      rw [List.filter_cons_of_neg (by simp [hak])]
      exact ih hnodup hr'

/-- C4: in same-engine comparison the outcomes are the concatenation over
baseline rows of the per-row outcomes; a baseline row whose key matches no
target row produces no outcome (and no error); and a baseline row whose key
matches a target row (keys unique across target rows) produces exactly one
outcome per numeric-classified column of the base table present in both
rows with both values non-null. -/
theorem same_platform_alignment (baseTable targetTable : TableData)
    (th : Thresholds) (cfg : Config)
    (hkeys : (targetTable.rows.map getRowKey).Nodup) :
    compareSamePlatform baseTable targetTable th cfg
      = baseTable.rows.flatMap
          (samePlatformRow (buildIndex targetTable.rows) baseTable.headers th cfg) ∧
    (∀ baseRow, (∀ targetRow ∈ targetTable.rows,
        getRowKey targetRow ≠ getRowKey baseRow) →
      samePlatformRow (buildIndex targetTable.rows) baseTable.headers th cfg baseRow
        = []) ∧
    (∀ baseRow targetRow, targetRow ∈ targetTable.rows →
      getRowKey targetRow = getRowKey baseRow →
      samePlatformRow (buildIndex targetTable.rows) baseTable.headers th cfg baseRow
        = samePlatformRowSpec baseTable.headers th cfg baseRow targetRow) := by
  refine ⟨rfl, fun baseRow h => samePlatformRow_none _ _ _ _ _ h, ?_⟩
  intro baseRow targetRow hmem hkey
  exact samePlatformRow_eq _ _ _ _ _ _
    (by rw [filter_key_singleton targetTable.rows hkeys targetRow hmem _ hkey]; rfl)

/-- Witness for C4 at a concrete pair of tables. -/
theorem same_platform_alignment_witness :
    samePlatformRow
        (buildIndex [[("Metric", Value.str "a"), ("Val", Value.int 20)]])
        ["Metric", "Val"] ⟨some 15, some 30⟩
        ⟨⟨some 15, some 30⟩, ⟨some 15, some 30⟩, [], []⟩
        [("Metric", Value.str "a"), ("Val", Value.int 10)]
      = [compareValues "Val" (Value.int 10) (Value.int 20)
          ⟨some 15, some 30⟩] ∧
    samePlatformRow
        (buildIndex [[("Metric", Value.str "a"), ("Val", Value.int 20)]])
        ["Metric", "Val"] ⟨some 15, some 30⟩
        ⟨⟨some 15, some 30⟩, ⟨some 15, some 30⟩, [], []⟩
        [("Metric", Value.str "zz"), ("Val", Value.int 3)] = [] := by
  have h := same_platform_alignment
    ⟨"t", ["Metric", "Val"], [[("Metric", Value.str "a"), ("Val", Value.int 10)],
      [("Metric", Value.str "zz"), ("Val", Value.int 3)]]⟩
    ⟨"t", ["Metric", "Val"], [[("Metric", Value.str "a"), ("Val", Value.int 20)]]⟩
    ⟨some 15, some 30⟩ ⟨⟨some 15, some 30⟩, ⟨some 15, some 30⟩, [], []⟩
    (by decide)
  constructor
  · exact (h.2.2 [("Metric", Value.str "a"), ("Val", Value.int 10)]
      [("Metric", Value.str "a"), ("Val", Value.int 20)] (by decide) (by decide)).trans
      (by with_unfolding_all rfl)
  · exact h.2.1 [("Metric", Value.str "zz"), ("Val", Value.int 3)] (by decide)

/-- C10: when several target rows share one stringified first-column key,
a baseline row with that key is compared against the *last* such target row
in the target table's row order; the earlier rows are shadowed and
contribute no outcomes. -/
theorem duplicate_key_last_wins (baseTable targetTable : TableData)
    (th : Thresholds) (cfg : Config) :
    compareSamePlatform baseTable targetTable th cfg
      = baseTable.rows.flatMap
          (samePlatformRow (buildIndex targetTable.rows) baseTable.headers th cfg) ∧
    (∀ baseRow t₀,
      (targetTable.rows.filter
          (fun r => getRowKey r = getRowKey baseRow)).getLast? = some t₀ →
      samePlatformRow (buildIndex targetTable.rows) baseTable.headers th cfg baseRow
        = samePlatformRowSpec baseTable.headers th cfg baseRow t₀) :=
  ⟨rfl, fun _ _ hlast => samePlatformRow_eq _ _ _ _ _ _ hlast⟩

/-- Witness for C10: two target rows share the key `"a"`; the comparison
uses the second one (value 200), not the first (value 100). -/
theorem duplicate_key_last_wins_witness :
    samePlatformRow
        (buildIndex [[("Metric", Value.str "a"), ("Val", Value.int 100)],
          [("Metric", Value.str "a"), ("Val", Value.int 200)]])
        ["Metric", "Val"] ⟨some 15, some 30⟩
        ⟨⟨some 15, some 30⟩, ⟨some 15, some 30⟩, [], []⟩
        [("Metric", Value.str "a"), ("Val", Value.int 5)]
      = [compareValues "Val" (Value.int 5) (Value.int 200)
          ⟨some 15, some 30⟩] := by
  have h := duplicate_key_last_wins
    ⟨"t", ["Metric", "Val"], [[("Metric", Value.str "a"), ("Val", Value.int 5)]]⟩
    ⟨"t", ["Metric", "Val"], [[("Metric", Value.str "a"), ("Val", Value.int 100)],
      [("Metric", Value.str "a"), ("Val", Value.int 200)]]⟩
    ⟨some 15, some 30⟩ ⟨⟨some 15, some 30⟩, ⟨some 15, some 30⟩, [], []⟩
  exact (h.2 [("Metric", Value.str "a"), ("Val", Value.int 5)]
    [("Metric", Value.str "a"), ("Val", Value.int 200)] (by decide)).trans
    (by with_unfolding_all rfl)

/-- Python `sum()` over numeric values computes the rational sum. -/
lemma pySum_numeric : ∀ (vs : List Value) (a : ℚ),
    (∀ v ∈ vs, v.isStr = false ∧ v ≠ Value.none) →
    vs.foldl pySumStep (some a) = some (a + (vs.map valNum).sum) := by
  intro vs
  induction vs with
  | nil => intro a _; simp
  | cons v rest ih =>
    intro a h
    have hv := h v (by simp)
    have hrest : ∀ x ∈ rest, x.isStr = false ∧ x ≠ Value.none :=
      fun x hx => h x (by simp [hx])
    cases v with
    | none => exact absurd rfl hv.2
    | str s => exact absurd hv.1 (by simp [Value.isStr])
    | int n =>
      show rest.foldl pySumStep (some (a + (n : ℚ))) = _
      rw [ih _ hrest]
      have hsum : ((Value.int n :: rest).map valNum).sum
          = (n : ℚ) + (rest.map valNum).sum := by simp [valNum]
      rw [hsum]
      congr 1
      ring
    | float q =>
      show rest.foldl pySumStep (some (a + q)) = _
      rw [ih _ hrest]
      have hsum : ((Value.float q :: rest).map valNum).sum
          = q + (rest.map valNum).sum := by simp [valNum]
      rw [hsum]
      congr 1
      ring

/-- Python `sum()` succeeds on a fully numeric value list. -/
lemma pySum_ok (vs : List Value)
    (h : ∀ v ∈ vs, v.isStr = false ∧ v ≠ Value.none) :
    pySum vs = some ((vs.map valNum).sum) := by
  unfold pySum
  rw [pySum_numeric vs 0 h, zero_add]

/-- The function `columnValues` never returns `None` cells. -/
lemma columnValues_ne_none (t : TableData) (c : String) :
    ∀ v ∈ columnValues t c, v ≠ Value.none := by
  intro v hv
  unfold columnValues at hv
  simpa using (List.mem_filter.mp hv).2

/-- The cross-platform header loop succeeds on numeric columns and produces
exactly the spec-side outcome list. -/
lemma crossLoop_ok (baseTable targetTable : TableData) (th : Thresholds)
    (cfg : Config) : ∀ hs : List String,
    (∀ c ∈ hs, isNumericColumn cfg c = true →
      (∀ v ∈ columnValues baseTable c, v.isStr = false) ∧
      (∀ v ∈ columnValues targetTable c, v.isStr = false)) →
    crossLoop baseTable targetTable th cfg hs
      = Except.ok (crossColumnSpec baseTable targetTable th cfg hs) := by
  intro hs
  induction hs with
  | nil => intro _; rfl
  | cons c rest ih =>
    intro h
    have hrest := fun x hx => h x (List.mem_cons_of_mem _ hx)
    simp only [crossLoop]
    by_cases hnum : isNumericColumn cfg c = true
    · rw [if_pos hnum]
      by_cases hv : columnValues baseTable c ≠ [] ∧ columnValues targetTable c ≠ []
      · rw [if_pos hv]
        have hnum' := h c (by simp) hnum
        rw [pySum_ok _ (fun v hv' => ⟨hnum'.1 v hv', columnValues_ne_none _ _ v hv'⟩),
          pySum_ok _ (fun v hv' => ⟨hnum'.2 v hv', columnValues_ne_none _ _ v hv'⟩),
          ih hrest]
        show Except.ok _ = _
        unfold crossColumnSpec
        rw [List.filter_cons_of_pos (by simp [hnum, hv.1, hv.2])]
        rfl
      · rw [if_neg hv, ih hrest]
        unfold crossColumnSpec
        rw [List.filter_cons_of_neg (by simp only [decide_eq_true_eq]; tauto)]
    · rw [if_neg hnum, ih hrest]
      unfold crossColumnSpec
      rw [List.filter_cons_of_neg (by simp only [decide_eq_true_eq]; tauto)]

/-- Counting outcomes by metric name over a nodup column list. -/
lemma count_spec_outcomes (l : List String) (p : String → Bool)
    (g : String → ComparisonResult) (hg : ∀ c, (g c).metric_name = c)
    (hnodup : l.Nodup) (c : String) :
    (((l.filter p).map g).filter (fun o => o.metric_name = c)).length
      = if c ∈ l ∧ p c = true then 1 else 0 := by
  induction l with
  | nil => simp
  | cons a rest ih =>
    simp only [List.nodup_cons] at hnodup
    obtain ⟨hna, hnd⟩ := hnodup
    by_cases hpa : p a = true
    · rw [List.filter_cons_of_pos hpa, List.map_cons]
      by_cases hac : a = c
      · subst hac
        rw [List.filter_cons_of_pos (by simp [hg a]), List.length_cons, ih hnd,
          if_neg (fun hq => hna hq.1), if_pos ⟨by simp, hpa⟩]
      · rw [List.filter_cons_of_neg (by simp [hg a, hac]), ih hnd]
        by_cases hcr : c ∈ rest ∧ p c = true
        · rw [if_pos hcr, if_pos ⟨List.mem_cons_of_mem _ hcr.1, hcr.2⟩]
        · rw [if_neg hcr, if_neg (fun hq => hcr
            ⟨(List.mem_cons.mp hq.1).resolve_left (fun he => hac he.symm), hq.2⟩)]
    · rw [List.filter_cons_of_neg (by simpa using hpa), ih hnd]
      by_cases hca : c = a
      · subst hca
        rw [if_neg (fun hq => hpa hq.2), if_neg (fun hq => hpa hq.2)]
      · by_cases hcr : c ∈ rest ∧ p c = true
        · rw [if_pos hcr, if_pos ⟨List.mem_cons_of_mem _ hcr.1, hcr.2⟩]
        · rw [if_neg hcr, if_neg (fun hq => hcr
            ⟨(List.mem_cons.mp hq.1).resolve_left (fun he => hca he), hq.2⟩)]

/-- Membership in the common-header list. -/
lemma mem_commonHeaders (bt tt : TableData) (c : String) :
    c ∈ commonHeaders bt tt ↔ c ∈ bt.headers ∧ c ∈ tt.headers := by
  unfold commonHeaders
  simp [List.mem_filter, List.mem_dedup]

/-- The common-header list has no duplicates. -/
lemma commonHeaders_nodup (bt tt : TableData) : (commonHeaders bt tt).Nodup :=
  (List.nodup_dedup _).filter _

/-- C5: in cross-engine comparison, provided the numeric common columns hold
no leftover text cells, the comparison succeeds and produces exactly one
outcome per numeric-classified column name common to both tables whose
value lists are nonempty on both sides, comparing the arithmetic means of
the non-null values. -/
theorem cross_platform_columns (baseTable targetTable : TableData) (th : Thresholds)
    (cfg : Config)
    (h : ∀ c ∈ commonHeaders baseTable targetTable, isNumericColumn cfg c = true →
      (∀ v ∈ columnValues baseTable c, v.isStr = false) ∧
      (∀ v ∈ columnValues targetTable c, v.isStr = false)) :
    ∃ out, compareCrossPlatform baseTable targetTable th cfg = Except.ok out ∧
      (∀ c : String, (out.filter (fun o => o.metric_name = c)).length
        = if c ∈ baseTable.headers ∧ c ∈ targetTable.headers ∧
             isNumericColumn cfg c = true ∧ columnValues baseTable c ≠ [] ∧
             columnValues targetTable c ≠ [] then 1 else 0) ∧
      (∀ c : String, c ∈ baseTable.headers → c ∈ targetTable.headers →
        isNumericColumn cfg c = true → columnValues baseTable c ≠ [] →
        columnValues targetTable c ≠ [] →
        compareValues c
          (Value.float (((columnValues baseTable c).map valNum).sum /
            (columnValues baseTable c).length))
          (Value.float (((columnValues targetTable c).map valNum).sum /
            (columnValues targetTable c).length)) th ∈ out) := by
  refine ⟨crossColumnSpec baseTable targetTable th cfg
      (commonHeaders baseTable targetTable),
    crossLoop_ok _ _ _ _ _ h, ?_, ?_⟩
  · intro c
    unfold crossColumnSpec
    rw [count_spec_outcomes _ _ _ (fun x => compareValues_metric x _ _ _)
      (commonHeaders_nodup _ _) c]
    by_cases h1 : c ∈ baseTable.headers ∧ c ∈ targetTable.headers ∧
        isNumericColumn cfg c = true ∧ columnValues baseTable c ≠ [] ∧
        columnValues targetTable c ≠ []
    · rw [if_pos h1, if_pos ⟨(mem_commonHeaders _ _ _).mpr ⟨h1.1, h1.2.1⟩,
        by simp [h1.2.2.1, h1.2.2.2.1, h1.2.2.2.2]⟩]
    · rw [if_neg h1, if_neg (fun hq => h1 ?_)]
      obtain ⟨hmem, hpred⟩ := hq
      obtain ⟨hb, ht⟩ := (mem_commonHeaders _ _ _).mp hmem
      simp only [decide_eq_true_eq] at hpred
      exact ⟨hb, ht, hpred.1, hpred.2.1, hpred.2.2⟩
  · intro c hb ht hnum hbv htv
    unfold crossColumnSpec
    apply List.mem_map_of_mem
    rw [List.mem_filter]
    exact ⟨(mem_commonHeaders _ _ _).mpr ⟨hb, ht⟩, by simp [hnum, hbv, htv]⟩

/-- Witness for C5: the spec's cross-engine mean scenario (means 200 vs 200,
zero change, no flags). -/
theorem cross_platform_columns_witness :
    compareCrossPlatform c5Base c5Target ⟨some 20, some 50⟩ demoCfg
      = Except.ok [⟨"Time", Value.float 200, Value.float 200, some 0, some 0,
          false, false⟩] ∧
    compareValues "Time"
        (Value.float (((columnValues c5Base "Time").map valNum).sum /
          (columnValues c5Base "Time").length))
        (Value.float (((columnValues c5Target "Time").map valNum).sum /
          (columnValues c5Target "Time").length)) ⟨some 20, some 50⟩
      ∈ [(⟨"Time", Value.float 200, Value.float 200, some 0, some 0,
          false, false⟩ : ComparisonResult)] := by
  have hconc : compareCrossPlatform c5Base c5Target ⟨some 20, some 50⟩ demoCfg
      = Except.ok [⟨"Time", Value.float 200, Value.float 200, some 0, some 0,
          false, false⟩] := by with_unfolding_all rfl
  obtain ⟨out, hok, _, hmem⟩ :=
    cross_platform_columns c5Base c5Target ⟨some 20, some 50⟩ demoCfg (by decide)
  have hout : out = [⟨"Time", Value.float 200, Value.float 200, some 0, some 0,
      false, false⟩] := by
    have := hok.symm.trans hconc
    exact Except.ok.inj this
  exact ⟨hconc, hout ▸ hmem "Time" (by decide) (by decide) (by decide)
    (by decide) (by decide)⟩

/-- C6 (code bug): a leftover text cell in a numeric-classified common
column makes the cross-engine column averaging raise `TypeError` inside
`sum()`, aborting the whole comparison — the claim (and §7 of the spec)
says the comparison never raises on malformed cells. -/
theorem cross_platform_string_cell_raises :
    compareCrossPlatform c6Base c6Target ⟨some 20, some 50⟩ demoCfg
      = Except.error () ∧
    compareReports ⟨"oracle_awr", [("load_profile", c6Base)]⟩
      ⟨"postgresql_pg_profile", [("load_profile", c6Target)]⟩ Option.none demoCfg
      = Except.error () := by
  exact ⟨by with_unfolding_all rfl, by with_unfolding_all rfl⟩

/-- The function `dictInsert` only adds the inserted key. -/
lemma mem_dictInsert {α : Type} (d : List (String × α)) (k : String) (v : α)
    (x : String × α) (hx : x ∈ dictInsert d k v) : x.1 = k ∨ x ∈ d := by
  induction d with
  | nil =>
    simp only [dictInsert, List.mem_singleton] at hx
    exact Or.inl (by rw [hx])
  | cons p rest ih =>
    rw [show dictInsert (p :: rest) k v
      = if p.1 = k then (k, v) :: rest else p :: dictInsert rest k v from rfl] at hx
    by_cases hp : p.1 = k
    · rw [if_pos hp] at hx
      rcases List.mem_cons.mp hx with rfl | hx'
      · exact Or.inl rfl
      · exact Or.inr (List.mem_cons_of_mem _ hx')
    · rw [if_neg hp] at hx
      rcases List.mem_cons.mp hx with rfl | hx'
      · exact Or.inr (List.mem_cons_self _ _)
      · rcases ih hx' with h | h
        · exact Or.inl h
        · exact Or.inr (List.mem_cons_of_mem _ h)

/-- Key presence after `dictInsert`. -/
lemma any_key_dictInsert {α : Type} (d : List (String × α)) (k k' : String) (v : α) :
    (dictInsert d k v).any (fun p => p.1 = k')
      = (decide (k = k') || d.any (fun p => p.1 = k')) := by
  induction d with
  | nil => simp [dictInsert]
  | cons p rest ih =>
    rw [show dictInsert (p :: rest) k v
      = if p.1 = k then (k, v) :: rest else p :: dictInsert rest k v from rfl]
    by_cases hp : p.1 = k
    · rw [if_pos hp]
      simp only [List.any_cons, hp]
      rw [← Bool.or_assoc, Bool.or_self]
    · rw [if_neg hp]
      simp only [List.any_cons, ih]
      rw [← Bool.or_assoc, Bool.or_comm (decide (p.1 = k')) (decide (k = k')),
        Bool.or_assoc]

/-- Key presence after folding a list of inserts. -/
lemma any_key_foldInsert : ∀ (ps : List (String × String)) (d : Row) (k' : String),
    ((ps.foldl (fun d p => dictInsert d p.1 (normalizeValue p.2)) d).any
        (fun p => p.1 = k'))
      = (ps.any (fun p => p.1 = k') || d.any (fun p => p.1 = k')) := by
  intro ps
  induction ps with
  | nil => intro d k'; simp
  | cons p rest ih =>
    intro d k'
    show ((rest.foldl _ (dictInsert d p.1 (normalizeValue p.2))).any _) = _
    rw [ih, any_key_dictInsert]
    simp only [List.any_cons]
    rw [← Bool.or_assoc, Bool.or_comm (rest.any fun p => decide (p.1 = k'))
      (decide (p.1 = k')), Bool.or_assoc]

/-- Entries of a fold of inserts come from the inserted pairs or the seed. -/
lemma mem_foldInsert : ∀ (ps : List (String × String)) (d : Row) (x : String × Value),
    x ∈ ps.foldl (fun d p => dictInsert d p.1 (normalizeValue p.2)) d →
    x.1 ∈ ps.map Prod.fst ∨ x ∈ d := by
  intro ps
  induction ps with
  | nil => intro d x hx; exact Or.inr hx
  | cons p rest ih =>
    intro d x hx
    rcases ih _ _ hx with h | h
    · exact Or.inl (by simp only [List.map_cons, List.mem_cons]; exact Or.inr h)
    · rcases mem_dictInsert _ _ _ _ h with h' | h'
      · exact Or.inl (by simp [h'])
      · exact Or.inr h'

/-- Every key of a built row is a declared column name. -/
lemma buildRow_keys_sub (headers : List String) (cells : List String)
    (x : String × Value) (hx : x ∈ buildRow headers cells) : x.1 ∈ headers := by
  unfold buildRow at hx
  rcases mem_foldInsert _ _ _ hx with h | h
  · rcases List.mem_map.mp h with ⟨pr, hpr, he⟩
    exact he ▸ (List.of_mem_zip hpr).1
  · cases h

/-- A built row carries every declared column name as a key when the cell
count matches the header count. -/
lemma buildRow_hasKey (headers cells : List String)
    (hlen : headers.length = cells.length) (k : String) (hk : k ∈ headers) :
    Row.hasKey (buildRow headers cells) k = true := by
  unfold buildRow Row.hasKey
  rw [any_key_foldInsert]
  have hfst : (headers.zip cells).map Prod.fst = headers :=
    List.map_fst_zip _ _ (le_of_eq hlen)
  rcases List.mem_map.mp (hfst ▸ hk) with ⟨pr, hpr, he⟩
  have hany : (headers.zip cells).any (fun p => p.1 = k) = true :=
    List.any_eq_true.mpr ⟨pr, hpr, by simp [he]⟩
  simp [hany]

/-- The function `htmlDataRow` produces a row exactly under the cell-count condition. -/
lemma htmlDataRow_eq (headers : List String) (tr : HtmlRow) :
    htmlDataRow headers tr
      = if (tr.filter (fun c => c.tag = CellTag.td) ≠ [] ∧
            (tr.filter (fun c => c.tag = CellTag.td)).length = headers.length : Bool)
        then some (buildRow headers ((tr.filter (fun c => c.tag = CellTag.td)).map
          (fun c => String.mk (pyStrip c.text.toList))))
        else Option.none := by
  unfold htmlDataRow
  by_cases hcond : tr.filter (fun c => c.tag = CellTag.td) ≠ [] ∧
      (tr.filter (fun c => c.tag = CellTag.td)).length = headers.length
  · rw [if_pos hcond, if_pos (by simpa using hcond)]
  · rw [if_neg hcond, if_neg (by simpa using hcond)]

/-- C7: in the markup-table extraction shared by both parsers, a data row
whose `<td>` count differs from the header count never appears (the row
count equals the count of well-shaped `<tr>`s), and every row that does
appear maps exactly the declared column names: each of its keys is a
column, and every column is one of its keys. -/
theorem html_table_row_shape (trs : List HtmlRow) (name : String) :
    (∀ r ∈ (parseHtmlTable trs name).rows, ∀ p ∈ r,
      p.1 ∈ (parseHtmlTable trs name).headers) ∧
    (∀ r ∈ (parseHtmlTable trs name).rows, ∀ k ∈ (parseHtmlTable trs name).headers,
      Row.hasKey r k = true) ∧
    (parseHtmlTable trs name).rows.length
      = ((trs.drop 1).filter (fun tr =>
          tr.filter (fun c => c.tag = CellTag.td) ≠ [] ∧
          (tr.filter (fun c => c.tag = CellTag.td)).length
            = (parseHtmlTable trs name).headers.length)).length := by
  have hrowchar : ∀ r ∈ (parseHtmlTable trs name).rows, ∃ tr : HtmlRow,
      (tr.filter (fun c => c.tag = CellTag.td)).length = (htmlHeaders trs).length ∧
      r = buildRow (htmlHeaders trs) ((tr.filter (fun c => c.tag = CellTag.td)).map
        (fun c => String.mk (pyStrip c.text.toList))) := by
    intro r hr
    obtain ⟨tr, _, hF⟩ := List.mem_filterMap.mp hr
    rw [htmlDataRow_eq] at hF
    by_cases hcond : (tr.filter (fun c => c.tag = CellTag.td) ≠ [] ∧
        (tr.filter (fun c => c.tag = CellTag.td)).length = (htmlHeaders trs).length : Bool)
    · rw [if_pos hcond] at hF
      refine ⟨tr, ?_, (Option.some.inj hF).symm⟩
      have := of_decide_eq_true hcond
      exact this.2
    · rw [if_neg hcond] at hF
      exact absurd hF (by simp)
  refine ⟨?_, ?_, ?_⟩
  · intro r hr p hp
    obtain ⟨tr, _, rfl⟩ := hrowchar r hr
    exact buildRow_keys_sub _ _ _ hp
  · intro r hr k hk
    obtain ⟨tr, hlen, rfl⟩ := hrowchar r hr
    exact buildRow_hasKey _ _ (by rw [List.length_map, hlen]) k hk
  · show ((trs.drop 1).filterMap (htmlDataRow (htmlHeaders trs))).length = _
    rw [filterMap_eq_map_filter (trs.drop 1)
      (fun tr => buildRow (htmlHeaders trs) ((tr.filter (fun c => c.tag = CellTag.td)).map
        (fun c => String.mk (pyStrip c.text.toList))))
      (fun tr => (tr.filter (fun c => c.tag = CellTag.td) ≠ [] ∧
        (tr.filter (fun c => c.tag = CellTag.td)).length = (htmlHeaders trs).length : Bool))
      _ (fun tr => htmlDataRow_eq (htmlHeaders trs) tr), List.length_map]
    rfl

/-- Witness for C7: a table with one well-formed and one malformed data row
keeps exactly the well-formed one, whose keys are the two columns. -/
theorem html_table_row_shape_witness :
    (parseHtmlTable c7Trs "demo").rows.length = 1 ∧
    ("A" : String) ∈ (parseHtmlTable c7Trs "demo").headers ∧
    Row.hasKey [("A", Value.int 1), ("B", Value.int 2)] "A" = true := by
  have h := html_table_row_shape c7Trs "demo"
  refine ⟨h.2.2.trans (by decide), ?_, ?_⟩
  · exact h.1 [("A", Value.int 1), ("B", Value.int 2)] (by decide)
      ("A", Value.int 1) (by decide)
  · exact h.2.1 [("A", Value.int 1), ("B", Value.int 2)] (by decide) "A" (by decide)

/-- A table comparison returned by `_compare_tables` is nonempty and carries
the requested table name. -/
lemma compareTables_ok_some (name : String) (bt tt : TableData) (th : Thresholds)
    (cfg : Config) (ctype : ComparisonType) (tc : TableComparison)
    (h : compareTables name bt tt th cfg ctype = Except.ok (some tc)) :
    tc.comparisons ≠ [] ∧ tc.table_name = name := by
  unfold compareTables at h
  cases hE : (if ctype = ComparisonType.cross_platform then
      compareCrossPlatform bt tt th cfg
    else Except.ok (compareSamePlatform bt tt th cfg)) with
  | error e =>
    rw [hE] at h
    exact absurd h (by simp [Except.map])
  | ok comps =>
    rw [hE] at h
    simp only [Except.map] at h
    by_cases hemp : comps.isEmpty
    · rw [if_pos hemp] at h
      exact absurd h (by simp)
    · rw [if_neg hemp] at h
      obtain rfl := Option.some.inj (Except.ok.inj h)
      exact ⟨by simpa using hemp, rfl⟩

/-- Characterization of the table loop of `compare_reports`: every produced
comparison stems from a requested name present (truthy) in both models with
nonempty outcomes, and every requested name that yields outcomes appears. -/
lemma compareSelected_spec (base target : ParserModel) (th : Thresholds)
    (cfg : Config) (ctype : ComparisonType) :
    ∀ (names : List String) (tcs : List TableComparison),
    compareSelected base target th cfg ctype names = Except.ok tcs →
    (∀ tc ∈ tcs, ∃ name, name ∈ names ∧ (∃ bt, getTable base name = some bt) ∧
      (∃ tt, getTable target name = some tt) ∧ tc.table_name = name ∧
      tc.comparisons ≠ []) ∧
    (∀ name ∈ names, ∀ bt tt tc, getTable base name = some bt →
      getTable target name = some tt → tableTruthy bt = true →
      tableTruthy tt = true →
      compareTables name bt tt th cfg ctype = Except.ok (some tc) →
      tc ∈ tcs) := by
  intro names
  induction names with
  | nil =>
    intro tcs h
    obtain rfl := Except.ok.inj h
    exact ⟨fun tc htc => absurd htc (by simp),
      fun name hname => absurd hname (by simp)⟩
  | cons name rest ih =>
    intro tcs h
    have hskip : compareSelected base target th cfg ctype rest = Except.ok tcs →
        (∀ tc ∈ tcs, ∃ nm, nm ∈ name :: rest ∧ (∃ bt, getTable base nm = some bt) ∧
          (∃ tt, getTable target nm = some tt) ∧ tc.table_name = nm ∧
          tc.comparisons ≠ []) ∧
        (∀ nm ∈ rest, ∀ bt tt tc, getTable base nm = some bt →
          getTable target nm = some tt → tableTruthy bt = true →
          tableTruthy tt = true →
          compareTables nm bt tt th cfg ctype = Except.ok (some tc) →
          tc ∈ tcs) := by
      intro hr
      obtain ⟨ha, hb⟩ := ih tcs hr
      exact ⟨fun tc htc =>
        (ha tc htc).imp (fun nm hnm => ⟨List.mem_cons_of_mem _ hnm.1, hnm.2⟩), hb⟩
    cases hgb : getTable base name with
    | none =>
      cases hgt : getTable target name with
      | none =>
        simp only [compareSelected, hgb, hgt] at h
        obtain ⟨ha, hb⟩ := hskip h
        refine ⟨ha, fun nm hnm bt tt tc hgb' hgt' htb htt hct => ?_⟩
        rcases List.mem_cons.mp hnm with rfl | hnm'
        · exact absurd (hgb.symm.trans hgb') (by simp)
        · exact hb nm hnm' bt tt tc hgb' hgt' htb htt hct
      | some tt0 =>
        simp only [compareSelected, hgb, hgt] at h
        obtain ⟨ha, hb⟩ := hskip h
        refine ⟨ha, fun nm hnm bt tt tc hgb' hgt' htb htt hct => ?_⟩
        rcases List.mem_cons.mp hnm with rfl | hnm'
        · exact absurd (hgb.symm.trans hgb') (by simp)
        · exact hb nm hnm' bt tt tc hgb' hgt' htb htt hct
    | some bt0 =>
      cases hgt : getTable target name with
      | none =>
        simp only [compareSelected, hgb, hgt] at h
        obtain ⟨ha, hb⟩ := hskip h
        refine ⟨ha, fun nm hnm bt tt tc hgb' hgt' htb htt hct => ?_⟩
        rcases List.mem_cons.mp hnm with rfl | hnm'
        · exact absurd (hgt.symm.trans hgt') (by simp)
        · exact hb nm hnm' bt tt tc hgb' hgt' htb htt hct
      | some tt0 =>
        simp only [compareSelected, hgb, hgt] at h
        by_cases htru : tableTruthy bt0 = true ∧ tableTruthy tt0 = true
        · rw [if_pos htru] at h
          cases hct : compareTables name bt0 tt0 th cfg ctype with
          | error e =>
            rw [hct] at h
            exact absurd h (by simp)
          | ok otc =>
            cases otc with
            | none =>
              rw [hct] at h
              obtain ⟨ha, hb⟩ := hskip h
              refine ⟨ha, fun nm hnm bt tt tc hgb' hgt' htb htt hct' => ?_⟩
              rcases List.mem_cons.mp hnm with rfl | hnm'
              · obtain rfl := Option.some.inj (hgb.symm.trans hgb')
                obtain rfl := Option.some.inj (hgt.symm.trans hgt')
                exact absurd (Except.ok.inj (hct.symm.trans hct')) (by simp)
              · exact hb nm hnm' bt tt tc hgb' hgt' htb htt hct'
            | some tc0 =>
              rw [hct] at h
              cases hrest : compareSelected base target th cfg ctype rest with
              | error e =>
                rw [hrest] at h
                exact absurd h (by simp [Except.map])
              | ok tcs' =>
                rw [hrest] at h
                simp only [Except.map] at h
                obtain rfl := Except.ok.inj h
                obtain ⟨ha, hb⟩ := ih tcs' hrest
                constructor
                · intro tc htc
                  rcases List.mem_cons.mp htc with rfl | htc'
                  · have hprops := compareTables_ok_some name bt0 tt0 th cfg ctype tc hct
                    exact ⟨name, List.mem_cons_self _ _, ⟨bt0, hgb⟩, ⟨tt0, hgt⟩,
                      hprops.2, hprops.1⟩
                  · obtain ⟨nm, hnm, h1, h2, h3, h4⟩ := ha tc htc'
                    exact ⟨nm, List.mem_cons_of_mem _ hnm, h1, h2, h3, h4⟩
                · intro nm hnm bt tt tc hgb' hgt' htb htt hct'
                  rcases List.mem_cons.mp hnm with rfl | hnm'
                  · obtain rfl := Option.some.inj (hgb.symm.trans hgb')
                    obtain rfl := Option.some.inj (hgt.symm.trans hgt')
                    obtain rfl := Option.some.inj (Except.ok.inj (hct.symm.trans hct'))
                    exact List.mem_cons_self _ _
                  · exact List.mem_cons_of_mem _
                      (hb nm hnm' bt tt tc hgb' hgt' htb htt hct')
        · rw [if_neg htru] at h
          obtain ⟨ha, hb⟩ := hskip h
          refine ⟨ha, fun nm hnm bt tt tc hgb' hgt' htb htt hct' => ?_⟩
          rcases List.mem_cons.mp hnm with rfl | hnm'
          · obtain rfl := Option.some.inj (hgb.symm.trans hgb')
            obtain rfl := Option.some.inj (hgt.symm.trans hgt')
            exact absurd ⟨htb, htt⟩ htru
          · exact hb nm hnm' bt tt tc hgb' hgt' htb htt hct'

/-- C8: in every successful comparison call, a TableDiff appears only with
at least one outcome, `summary.total_tables` equals the number of
TableDiffs present, a table absent from either model contributes no
TableDiff, and every requested table present and truthy in both models
whose comparison yields outcomes does appear. -/
theorem table_diff_iff_outcomes (base target : ParserModel)
    (sel : Option (List String)) (cfg : Config) (res : ReportComparison)
    (h : compareReports base target sel cfg = Except.ok res) :
    res.summary.total_tables = res.table_comparisons.length ∧
    (∀ tc ∈ res.table_comparisons, tc.comparisons ≠ []) ∧
    (∀ name, (getTable base name = Option.none ∨ getTable target name = Option.none) →
      ∀ tc ∈ res.table_comparisons, tc.table_name ≠ name) ∧
    (∀ name ∈ selectedList base target sel, ∀ bt tt tc,
      getTable base name = some bt → getTable target name = some tt →
      tableTruthy bt = true → tableTruthy tt = true →
      compareTables name bt tt
          (getThresholds cfg (determineComparisonType base.reportType target.reportType))
          cfg (determineComparisonType base.reportType target.reportType)
        = Except.ok (some tc) →
      tc ∈ res.table_comparisons) := by
  simp only [compareReports] at h
  cases hloop : compareSelected base target
      (getThresholds cfg (determineComparisonType base.reportType target.reportType))
      cfg (determineComparisonType base.reportType target.reportType)
      (selectedList base target sel) with
  | error e =>
    rw [hloop] at h
    exact absurd h (by simp [Except.map])
  | ok tcs =>
    rw [hloop] at h
    simp only [Except.map] at h
    obtain rfl := Except.ok.inj h
    obtain ⟨ha, hb⟩ := compareSelected_spec base target _ cfg _ _ tcs hloop
    refine ⟨rfl, ?_, ?_, ?_⟩
    · intro tc htc
      exact (ha tc htc).choose_spec.2.2.2.2
    · intro name hnone tc htc hname
      obtain ⟨nm, _, ⟨bt, hbt⟩, ⟨tt, htt⟩, htn, _⟩ := ha tc htc
      rcases hnone with h0 | h0
      · rw [hname] at htn
        rw [htn] at h0
        exact absurd (hbt.symm.trans h0) (by simp)
      · rw [hname] at htn
        rw [htn] at h0
        exact absurd (htt.symm.trans h0) (by simp)
    · intro name hname bt tt tc h1 h2 h3 h4 h5
      exact hb name hname bt tt tc h1 h2 h3 h4 h5

/-- Witness for C8: scenario 4 — table `"a"` requested but missing from the
target contributes nothing; only `"t"` yields a TableDiff. -/
theorem table_diff_iff_outcomes_witness :
    c8Res.summary.total_tables = c8Res.table_comparisons.length ∧
    c8Res.table_comparisons.map (fun tc => tc.table_name) = ["t"] ∧
    c8Res.summary.total_tables = 1 := by
  have h := table_diff_iff_outcomes c8BaseModel c8TargetModel (some ["a", "t"])
    demoCfg c8Res (by with_unfolding_all rfl)
  exact ⟨h.1, by with_unfolding_all rfl, by with_unfolding_all rfl⟩

/-- The table loop ignores names missing from either model. -/
lemma compareSelected_skip (base target : ParserModel) (th : Thresholds)
    (cfg : Config) (ctype : ComparisonType) : ∀ l : List String,
    compareSelected base target th cfg ctype l
      = compareSelected base target th cfg ctype (l.filter (fun n =>
          (getTable base n).isSome ∧ (getTable target n).isSome)) := by
  intro l
  induction l with
  | nil => rfl
  | cons name rest ih =>
    cases hgb : getTable base name with
    | none =>
      rw [List.filter_cons_of_neg (by simp [hgb])]
      cases hgt : getTable target name with
      | none => simp only [compareSelected, hgb, hgt]; exact ih
      | some tt0 => simp only [compareSelected, hgb, hgt]; exact ih
    | some bt0 =>
      cases hgt : getTable target name with
      | none =>
        rw [List.filter_cons_of_neg (by simp [hgb, hgt])]
        simp only [compareSelected, hgb, hgt]
        exact ih
      | some tt0 =>
        rw [List.filter_cons_of_pos (by simp [hgb, hgt])]
        simp only [compareSelected, hgb, hgt]
        rw [ih]

/-- C9 counterexample: with an *empty* selected-table list the engine
compares nothing, although the intersection of table identifiers is
nonempty — `selected_tables is None` is the only case that falls back to
the intersection. -/
theorem selected_tables_empty_counterexample :
    getCommonTables c9Base c9Target = ["t"] ∧
    (compareReports c9Base c9Target (some []) demoCfg).map
      (fun r => r.summary.total_tables) = Except.ok 0 ∧
    (compareReports c9Base c9Target Option.none demoCfg).map
      (fun r => r.summary.total_tables) = Except.ok 1 :=
  ⟨by decide, by with_unfolding_all rfl, by with_unfolding_all rfl⟩

/-- C9 (amended): when the selected-table list is *unspecified* (`None`) the
tables compared are exactly the intersection of the identifiers present in
both models; an *empty* list compares no tables at all; and an explicit
list is used as given, with identifiers not present in both models skipped
without error. -/
theorem selected_tables_amended (base target : ParserModel) (cfg : Config) :
    compareReports base target Option.none cfg
      = compareReports base target (some (getCommonTables base target)) cfg ∧
    compareReports base target (some []) cfg
      = Except.ok
          { comparison_type := determineComparisonType base.reportType target.reportType,
            table_comparisons := [],
            thresholds :=
              getThresholds cfg (determineComparisonType base.reportType target.reportType),
            summary := ⟨0, 0, 0, 0, false⟩ } ∧
    ∀ l, compareReports base target (some l) cfg
      = compareReports base target (some (l.filter (fun n =>
          (getTable base n).isSome ∧ (getTable target n).isSome))) cfg := by
  refine ⟨rfl, rfl, ?_⟩
  intro l
  simp only [compareReports, selectedList]
  rw [compareSelected_skip]

end AWRCompare
